import Mathlib

/-!
Verification development for the hazo_config repository.

The core under verification is the config-provider contract and its two
implementations:
  * the persistent, file-backed provider `HazoConfig`
    (src/src/lib/config-loader.ts), and
  * the in-memory provider `MockConfigProvider`
    (src/src/lib/mock_config_provider.ts),
with the shared types from src/src/lib/types.ts.

Modelling decisions:
  * A JavaScript object of type `Record<string, T>` is modelled as an
    association list `List (String × T)` with unique keys (JS objects never
    hold two properties of the same name).  Property read `o[k]` is `jsGet`,
    property assignment `o[k] = v` is `jsSet`, in-place mutation of the
    object stored at key `k` is `jsModify`, and the spread copy `{ ...o }`
    is `copyObj`.
  * The file system, as seen through the single path a provider manages, is
    `FsFile`: the file is absent, readable with some content, or present but
    unreadable (a non-ENOENT fault such as a permission error).
    `fs.existsSync` is `existsSync` and `fs.readFileSync` is `readFileSync`;
    neither modifies the file.  The outcome of `fs.writeFileSync` is an
    explicit `WriteOutcome` input, since whether a write succeeds is decided
    by the environment, not by the code.
  * The `ini` codec is an external collaborator: `ini.parse` is an arbitrary
    function `String → Except String (List (String × JsVal))` (it throws
    with a message, never with an ENOENT error code), and `ini.stringify` an
    arbitrary function `Store → String`.  `JsVal` models the JavaScript
    values `ini.parse` can produce: a non-object scalar, or an object
    (`typeof v` equal to the string "object" and `v` non-null); each value
    carries the string the JavaScript coercion `String(v)` yields for it.
-/

namespace HazoSpec

/-- Error codes, from `ConfigErrorCode` in src/src/lib/types.ts. -/
inductive ConfigErrorCode where
  | FILE_NOT_FOUND
  | READ_ERROR
  | WRITE_ERROR
  | PARSE_ERROR
  | VALIDATION_ERROR
  deriving DecidableEq, Repr

/-- The error objects `HazoConfig` throws: a JS `Error` carrying a `code`
field (see `HazoConfigError` in src/src/lib/types.ts).  The `originalError`
diagnostic payload is not modelled. -/
structure HazoConfigError where
  code : ConfigErrorCode
  message : String
  deriving DecidableEq, Repr

/-- JS object property read `o[k]`: the value at the (unique) key, if any.
The key type is generic so the same operation serves string-keyed records
and the address-keyed heap of the aliasing model below. -/
def jsGet [DecidableEq κ] (o : List (κ × α)) (k : κ) : Option α :=
  match o with
  | [] => none
  | (k', v) :: rest => if k' = k then some v else jsGet rest k

/-- JS object property assignment `o[k] = v`: overwrite the existing
property, or append a new one. -/
def jsSet [DecidableEq κ] (o : List (κ × α)) (k : κ) (v : α) : List (κ × α) :=
  match o with
  | [] => [(k, v)]
  | (k', v') :: rest => if k' = k then (k, v) :: rest else (k', v') :: jsSet rest k v

/-- In-place mutation of the object stored at key `k` (e.g.
`store[section][key] = value` mutates the inner object held by the store;
an object holds at most one property of a given name). -/
def jsModify [DecidableEq κ] (o : List (κ × α)) (k : κ) (f : α → α) : List (κ × α) :=
  match o with
  | [] => []
  | (k', v') :: rest =>
      if k' = k then (k', f v') :: rest else (k', v') :: jsModify rest k f

/-- The JS spread copy `\x7b ...o \x7d`: a fresh object with the same
properties, assigned one by one. -/
def copyObj [DecidableEq κ] (o : List (κ × α)) : List (κ × α) :=
  o.foldl (fun acc kv => jsSet acc kv.1 kv.2) []

/-- One section of the configuration store: `Record<string, string>`. -/
abbrev SectionMap := List (String × String)

/-- The configuration store:
`Record<string, Record<string, string>>`. -/
abbrev Store := List (String × SectionMap)

/-- A key list has no duplicates — the invariant every JS object satisfies. -/
def objNodup (o : List (κ × α)) : Prop :=
  (o.map Prod.fst).Nodup

instance [DecidableEq κ] (o : List (κ × α)) : Decidable (objNodup o) := by
  unfold objNodup; infer_instance

/-- Well-formed store: unique section names, unique keys in each section. -/
def storeWF (st : Store) : Prop :=
  objNodup st ∧ ∀ p ∈ st, objNodup p.2

instance (st : Store) : Decidable (storeWF st) := by
  unfold storeWF; infer_instance

/-- A JavaScript value as produced by `ini.parse`: either a non-object
scalar (string, number, boolean, null, ...) or an object
(`typeof v` is the string "object" and `v` is non-null; this includes
arrays).  `stringRepr` is the string the coercion `String(v)` yields. -/
inductive JsVal where
  | scalar (stringRepr : String)
  | obj (stringRepr : String) (entries : List (String × JsVal))

/-- The JavaScript coercion `String(v)`. -/
def jsString : JsVal → String
  | .scalar r => r
  | .obj r _ => r

/-- The file system at the provider's path. -/
inductive FsFile where
  | absent
  | readable (content : String)
  | unreadable (errMsg : String)
  deriving DecidableEq, Repr

/-- `fs.existsSync` at the provider's path. -/
def existsSync : FsFile → Bool
  | .absent => false
  | .readable _ => true
  | .unreadable _ => true

/-- The error `fs.readFileSync` throws: the code ENOENT (file absent), or
any other fault (permissions, I/O), carrying its message. -/
inductive ReadErr where
  | enoent
  | other (msg : String)

/-- `fs.readFileSync` at the provider's path. -/
def readFileSync : FsFile → Except ReadErr String
  | .absent => .error .enoent
  | .readable c => .ok c
  | .unreadable m => .error (.other m)

/-- The outcome of `fs.writeFileSync`, decided by the environment.  On
failure the write throws with a message, and the file is left in whatever
state the failed call leaves it (`residual`). -/
inductive WriteOutcome where
  | success
  | failure (msg : String) (residual : FsFile)

/-- The persistent provider `HazoConfig` (src/src/lib/config-loader.ts):
its resolved file path and its in-memory cache `this.config`. -/
structure HazoConfig where
  filePath : String
  config : Store
  deriving DecidableEq, Repr

namespace HazoConfig

/-- The cache-rebuild loop of `HazoConfig.refresh`
(config-loader.ts lines 127–136): starting from the empty object, for each
top-level entry of the parsed structure whose value is a non-null object,
set `config[section]` to an empty object and fill it with the entry's
values coerced by `String(...)`; any other top-level entry is skipped. -/
def buildConfig (parsed : List (String × JsVal)) : Store :=
  parsed.foldl
    (fun cfg entry =>
      match entry.2 with
      | JsVal.obj _ values =>
          jsSet cfg entry.1
            (values.foldl (fun sec kv => jsSet sec kv.1 (jsString kv.2)) [])
      | JsVal.scalar _ => cfg)
    []

/-- `HazoConfig.refresh` (config-loader.ts lines 120–157).  `parse` is the
external `ini.parse`.  Returns the thrown error or success, paired with the
post-call provider state.  The source wraps the whole body in one
try/catch whose handler first tests `error.code === 'ENOENT'`; since
`ini.parse` errors never carry the code ENOENT, a read fault other than
ENOENT and a parse fault land in the same PARSE_ERROR branch. -/
def refresh (parse : String → Except String (List (String × JsVal)))
    (file : FsFile) (c : HazoConfig) :
    Except HazoConfigError Unit × HazoConfig :=
  match readFileSync file with
  | .error .enoent =>
      (.error ⟨.FILE_NOT_FOUND, "Configuration file not found: " ++ c.filePath⟩, c)
  | .error (.other msg) =>
      (.error ⟨.PARSE_ERROR, "Failed to parse configuration: " ++ msg⟩, c)
  | .ok content =>
      match parse content with
      | .error msg =>
          (.error ⟨.PARSE_ERROR, "Failed to parse configuration: " ++ msg⟩, c)
      | .ok parsed => (.ok (), { c with config := buildConfig parsed })

/-- The `HazoConfig` constructor (config-loader.ts lines 42–56).
`path.resolve` is modelled as the identity on an already-resolved path.
If the file does not exist, throw FILE_NOT_FOUND; otherwise run the
initial `refresh` on the empty cache.  `fs.existsSync` and
`fs.readFileSync` never modify the file system, so the post-construction
file state (second component) is the input file state. -/
def construct (parse : String → Except String (List (String × JsVal)))
    (filePath : String) (file : FsFile) :
    Except HazoConfigError HazoConfig × FsFile :=
  if existsSync file then
    match refresh parse file ⟨filePath, []⟩ with
    | (.ok _, c) => (.ok c, file)
    | (.error e, _) => (.error e, file)
  else
    (.error ⟨.FILE_NOT_FOUND, "Configuration file not found: " ++ filePath⟩, file)

/-- `HazoConfig.get` (config-loader.ts lines 64–66):
`this.config[section]?.[key]`. -/
def get (c : HazoConfig) (s k : String) : Option String :=
  (jsGet c.config s).bind fun sec => jsGet sec k

/-- `HazoConfig.getSection` (config-loader.ts lines 73–75): a spread copy
of the section object if present (a present section object is always
truthy), else `undefined`. -/
def getSection (c : HazoConfig) (s : String) : Option SectionMap :=
  (jsGet c.config s).map copyObj

/-- `HazoConfig.set` (config-loader.ts lines 83–89): create the section
object if absent (an absent property reads as the falsy `undefined`), then
assign the key on the section object in place. -/
def set (c : HazoConfig) (s k v : String) : HazoConfig :=
  let cfg := if (jsGet c.config s).isNone then jsSet c.config s [] else c.config
  { c with config := jsModify cfg s fun sec => jsSet sec k v }

/-- `HazoConfig.save` (config-loader.ts lines 95–114): serialize the cache
through `ini.stringify` (total on string-valued stores) and overwrite the
file; a write fault is re-thrown as WRITE_ERROR.  Returns the thrown error
or success, the post-call provider state, and the post-call file state. -/
def save (stringify : Store → String) (wo : WriteOutcome)
    (c : HazoConfig) (_file : FsFile) :
    Except HazoConfigError Unit × HazoConfig × FsFile :=
  let iniContent := stringify c.config
  match wo with
  | .success => (.ok (), c, .readable iniContent)
  | .failure msg residual =>
      (.error ⟨.WRITE_ERROR, "Failed to save configuration: " ++ msg⟩, c, residual)

/-- `HazoConfig.getFilePath` (config-loader.ts lines 163–165). -/
def getFilePath (c : HazoConfig) : String :=
  c.filePath

/-- `HazoConfig.getAllSections` (config-loader.ts lines 171–178): a fresh
object rebuilt entry by entry, each section spread-copied. -/
def getAllSections (c : HazoConfig) : Store :=
  c.config.foldl (fun result p => jsSet result p.1 (copyObj p.2)) []

end HazoConfig

/-- `JSON.parse(JSON.stringify(x))` on a `Record<string, Record<string,
string>>`: a structural deep copy, rebuilding every object and keeping
every string. -/
def jsonDeepCopy (st : Store) : Store :=
  st.map fun p => (p.1, p.2.map fun kv => (kv.1, kv.2))

/-- The in-memory provider `MockConfigProvider`
(src/src/lib/mock_config_provider.ts): its store `this.config`. -/
structure MockConfigProvider where
  config : Store
  deriving DecidableEq, Repr

namespace MockConfigProvider

/-- The `MockConfigProvider` constructor (mock_config_provider.ts
lines 17–21): deep-copy the optional initial data, else start empty. -/
def construct (initial : Option Store) : MockConfigProvider :=
  match initial with
  | some d => ⟨jsonDeepCopy d⟩
  | none => ⟨[]⟩

/-- `MockConfigProvider.get` (mock_config_provider.ts lines 29–31). -/
def get (m : MockConfigProvider) (s k : String) : Option String :=
  (jsGet m.config s).bind fun sec => jsGet sec k

/-- `MockConfigProvider.getSection` (mock_config_provider.ts lines 38–40). -/
def getSection (m : MockConfigProvider) (s : String) : Option SectionMap :=
  (jsGet m.config s).map copyObj

/-- `MockConfigProvider.set` (mock_config_provider.ts lines 48–53). -/
def set (m : MockConfigProvider) (s k v : String) : MockConfigProvider :=
  let cfg := if (jsGet m.config s).isNone then jsSet m.config s [] else m.config
  ⟨jsModify cfg s fun sec => jsSet sec k v⟩

/-- `MockConfigProvider.save` (mock_config_provider.ts lines 58–60): a
no-op. -/
def save (m : MockConfigProvider) : MockConfigProvider := m

/-- `MockConfigProvider.refresh` (mock_config_provider.ts lines 65–67): a
no-op. -/
def refresh (m : MockConfigProvider) : MockConfigProvider := m

/-- `MockConfigProvider.getAllSections` (mock_config_provider.ts
lines 73–79). -/
def getAllSections (m : MockConfigProvider) : Store :=
  m.config.foldl (fun result p => jsSet result p.1 (copyObj p.2)) []

/-- `MockConfigProvider.reset` (mock_config_provider.ts lines 85–91):
replace the store with a deep copy of the argument, or empty it. -/
def reset (_m : MockConfigProvider) (newConfig : Option Store) :
    MockConfigProvider :=
  match newConfig with
  | some d => ⟨jsonDeepCopy d⟩
  | none => ⟨[]⟩

end MockConfigProvider

/-- The per-value key-uniqueness invariant every object `ini.parse` returns
satisfies (a JS object never holds two properties of the same name). -/
def objEntriesNodup : JsVal → Prop
  | .scalar _ => True
  | .obj _ entries => (entries.map Prod.fst).Nodup

instance : (v : JsVal) → Decidable (objEntriesNodup v)
  | .scalar _ => by unfold objEntriesNodup; infer_instance
  | .obj _ _ => by unfold objEntriesNodup; infer_instance

/-- The spec's description of which top-level entries of the parsed
structure survive into the cache ("only two-level section→key→value shapes
are accepted — scalar top-level keys outside any section are dropped",
every leaf coerced to its string form). -/
def keptTopLevelEntry (e : String × JsVal) : Option (String × SectionMap) :=
  match e.2 with
  | .obj _ values => some (e.1, values.map fun kv => (kv.1, jsString kv.2))
  | .scalar _ => none

/-- The codec used to witness the round-trip law: `stringify` serializes
every store to the text "W", and `parse` maps "W" to the saved sections
A = (x = 1, y = 2) and any other text to the initial sections A = (x = 1). -/
def roundTripStringify : Store → String := fun _ => "W"

/-- See `roundTripStringify`. -/
def roundTripParse : String → Except String (List (String × JsVal)) :=
  fun t =>
    if t = "W" then
      .ok [("A", JsVal.obj "[object Object]"
        [("x", JsVal.scalar "1"), ("y", JsVal.scalar "2")])]
    else
      .ok [("A", JsVal.obj "[object Object]" [("x", JsVal.scalar "1")])]

/-!
### Heap model for the copy semantics of the read accessors

The claim that `getSection`/`getAllSections` hand out copies and never the
internal store by reference is about object identity, so it is settled
over a refinement of the model in which the mutable
`Record<string, string>` section objects live in a heap and are handled
by reference (an address).  The accessor code modelled here is literally
identical in the two providers — `HazoConfig.getSection`
(config-loader.ts lines 73–75) equals `MockConfigProvider.getSection`
(mock_config_provider.ts lines 38–40), and `HazoConfig.getAllSections`
(config-loader.ts lines 171–178) equals
`MockConfigProvider.getAllSections` (mock_config_provider.ts lines
73–79) — so one heap-model provider covers both.
-/

/-- A heap of mutable JS section objects; a `Nat` address models a JS
object reference. -/
abbrev Heap := List (Nat × SectionMap)

/-- The addresses of the allocated objects. -/
def heapDom (h : Heap) : List Nat := h.map Prod.fst

/-- An address no allocated object uses. -/
def freshAddr (h : Heap) : Nat :=
  h.foldl (fun n p => max n p.1) 0 + 1

/-- Allocate a fresh object holding `o`; returns its address and the
grown heap. -/
def heapAlloc (h : Heap) (o : SectionMap) : Nat × Heap :=
  (freshAddr h, (freshAddr h, o) :: h)

/-- A provider's internal store with the section objects held by
reference: `this.config` maps each section name to the address of its
mutable `Record<string, string>` object. -/
structure RefProvider where
  sections : List (String × Nat)

namespace RefProvider

/-- The provider points only at allocated objects — the invariant the
pure model's operations maintain. -/
def wf (h : Heap) (c : RefProvider) : Prop :=
  ∀ p ∈ c.sections, p.2 ∈ heapDom h

instance (h : Heap) (c : RefProvider) : Decidable (c.wf h) := by
  unfold wf; infer_instance

/-- `get` in the heap model: `this.config[section]?.[key]`, reading
through the section object's reference. -/
def get (h : Heap) (c : RefProvider) (s k : String) : Option String :=
  (jsGet c.sections s).bind fun a => (jsGet h a).bind fun o => jsGet o k

/-- The section contents a `getSection` call would copy and hand out:
the observable result of a subsequent `getSection(s)`. -/
def readSection (h : Heap) (c : RefProvider) (s : String) :
    Option SectionMap :=
  (jsGet c.sections s).bind fun a => jsGet h a

/-- The contents a `getAllSections` call would copy and hand out:
the observable result of a subsequent `getAllSections()`. -/
def readAll (h : Heap) (c : RefProvider) : List (String × Option SectionMap) :=
  c.sections.map fun p => (p.1, jsGet h p.2)

/-- `getSection` in the heap model: the spread copy allocates a fresh
object with the same entries and returns its reference (the dereference
cannot miss under `wf`; the `none` fallback models the undefined read). -/
def getSection (h : Heap) (c : RefProvider) (s : String) :
    Option Nat × Heap :=
  match jsGet c.sections s with
  | none => (none, h)
  | some a =>
      match jsGet h a with
      | none => (none, h)
      | some o => (some (heapAlloc h (copyObj o)).1, (heapAlloc h (copyObj o)).2)

/-- The loop body of `getAllSections` in the heap model:
`result[section] = \x7b ...values \x7d` — dereference the section object
and allocate a fresh spread copy of it in the result (the dereference
cannot miss under `wf`). -/
def gasStep : List (String × Nat) × Heap → String × Nat → List (String × Nat) × Heap
  | (resAcc, hAcc), p =>
      match jsGet hAcc p.2 with
      | none => (resAcc, hAcc)
      | some o =>
          (jsSet resAcc p.1 (heapAlloc hAcc (copyObj o)).1,
            (heapAlloc hAcc (copyObj o)).2)

/-- `getAllSections` in the heap model: rebuild the result object entry by
entry, allocating a fresh spread copy of every section object. -/
def getAllSections (h : Heap) (c : RefProvider) :
    List (String × Nat) × Heap :=
  c.sections.foldl gasStep ([], h)

end RefProvider

/-! ### Lemmas about the JS-object operations -/

theorem jsGet_nil [DecidableEq κ] (k : κ) : jsGet ([] : List (κ × α)) k = none := rfl

theorem jsGet_cons_self [DecidableEq κ] (rest : List (κ × α)) (k : κ) (v : α) :
    jsGet ((k, v) :: rest) k = some v := by
  simp [jsGet]

theorem jsGet_cons_ne [DecidableEq κ] (rest : List (κ × α)) (k0 k : κ) (v0 : α)
    (h : k0 ≠ k) : jsGet ((k0, v0) :: rest) k = jsGet rest k := by
  simp [jsGet, h]

theorem jsSet_nil [DecidableEq κ] (k : κ) (v : α) : jsSet ([] : List (κ × α)) k v = [(k, v)] := rfl

theorem jsSet_cons_self [DecidableEq κ] (rest : List (κ × α)) (k : κ) (v0 v : α) :
    jsSet ((k, v0) :: rest) k v = (k, v) :: rest := by
  simp [jsSet]

theorem jsSet_cons_ne [DecidableEq κ] (rest : List (κ × α)) (k0 k : κ) (v0 v : α)
    (h : k0 ≠ k) : jsSet ((k0, v0) :: rest) k v = (k0, v0) :: jsSet rest k v := by
  simp [jsSet, h]

theorem jsModify_cons_self [DecidableEq κ] (rest : List (κ × α)) (k : κ) (v : α)
    (f : α → α) : jsModify ((k, v) :: rest) k f = (k, f v) :: rest := by
  simp [jsModify]

theorem jsModify_cons_ne [DecidableEq κ] (rest : List (κ × α)) (k0 k : κ) (v0 : α)
    (f : α → α) (h : k0 ≠ k) :
    jsModify ((k0, v0) :: rest) k f = (k0, v0) :: jsModify rest k f := by
  simp [jsModify, h]

theorem jsGet_jsSet_self [DecidableEq κ] (o : List (κ × α)) (k : κ) (v : α) :
    jsGet (jsSet o k v) k = some v := by
  induction o with
  | nil => rw [jsSet_nil, jsGet_cons_self]
  | cons p rest ih =>
      obtain ⟨k', v'⟩ := p
      by_cases h : k' = k
      · subst h
        rw [jsSet_cons_self, jsGet_cons_self]
      · rw [jsSet_cons_ne rest k' k v' v h, jsGet_cons_ne _ k' k v' h, ih]

theorem jsGet_jsSet_ne [DecidableEq κ] (o : List (κ × α)) (k k' : κ) (v : α)
    (h : k' ≠ k) : jsGet (jsSet o k v) k' = jsGet o k' := by
  induction o with
  | nil => rw [jsSet_nil, jsGet_cons_ne _ k k' v (Ne.symm h), jsGet_nil]
  | cons p rest ih =>
      obtain ⟨k0, v0⟩ := p
      by_cases h0 : k0 = k
      · subst h0
        rw [jsSet_cons_self, jsGet_cons_ne _ k0 k' v (Ne.symm h),
          jsGet_cons_ne _ k0 k' v0 (Ne.symm h)]
      · rw [jsSet_cons_ne rest k0 k v0 v h0]
        by_cases h1 : k0 = k'
        · subst h1
          rw [jsGet_cons_self, jsGet_cons_self]
        · rw [jsGet_cons_ne _ k0 k' _ h1, jsGet_cons_ne _ k0 k' v0 h1, ih]

theorem jsGet_jsModify_self [DecidableEq κ] (o : List (κ × α)) (k : κ) (f : α → α) :
    jsGet (jsModify o k f) k = (jsGet o k).map f := by
  induction o with
  | nil => rfl
  | cons p rest ih =>
      obtain ⟨k', v'⟩ := p
      by_cases h : k' = k
      · subst h
        rw [jsModify_cons_self, jsGet_cons_self, jsGet_cons_self]
        rfl
      · rw [jsModify_cons_ne rest k' k v' f h, jsGet_cons_ne _ k' k v' h,
          jsGet_cons_ne _ k' k v' h, ih]

theorem jsSet_of_not_mem [DecidableEq κ] (o : List (κ × α)) (k : κ) (v : α)
    (h : k ∉ o.map Prod.fst) : jsSet o k v = o ++ [(k, v)] := by
  induction o with
  | nil => simp [jsSet]
  | cons p rest ih =>
      obtain ⟨k', v'⟩ := p
      simp only [List.map_cons, List.mem_cons] at h
      push_neg at h
      rw [jsSet_cons_ne rest k' k v' v (Ne.symm h.1), ih h.2]
      simp

theorem foldl_jsSet_append [DecidableEq κ] (g : α → β) (es : List (κ × α))
    (acc : List (κ × β))
    (hnd : (es.map Prod.fst).Nodup)
    (hdisj : ∀ k ∈ es.map Prod.fst, k ∉ acc.map Prod.fst) :
    es.foldl (fun m kv => jsSet m kv.1 (g kv.2)) acc
      = acc ++ es.map fun kv => (kv.1, g kv.2) := by
  induction es generalizing acc with
  | nil => simp
  | cons p rest ih =>
      obtain ⟨k, v⟩ := p
      simp only [List.map_cons, List.nodup_cons] at hnd
      have hk : k ∉ acc.map Prod.fst := hdisj k (by simp)
      have hstep : jsSet acc k (g v) = acc ++ [(k, g v)] :=
        jsSet_of_not_mem acc k (g v) hk
      simp only [List.foldl_cons, hstep]
      rw [ih (acc ++ [(k, g v)]) hnd.2]
      · simp
      · intro k2 hk2
        simp only [List.map_append, List.mem_append, List.map_cons,
          List.map_nil, List.mem_singleton, not_or]
        refine ⟨hdisj k2 (by simp [hk2]), ?_⟩
        intro hcon
        exact hnd.1 (by simpa [hcon] using hk2)

theorem copyObj_eq_self [DecidableEq κ] (o : List (κ × α)) (h : objNodup o) :
    copyObj o = o := by
  have h2 := foldl_jsSet_append (fun x => x) o [] h (by simp)
  simpa [copyObj] using h2

/-- The deep-copy accessor loop shared by `HazoConfig.getAllSections` and
`MockConfigProvider.getAllSections` reproduces a well-formed store. -/
theorem foldl_copy_eq_self (st : Store) (hwf : storeWF st) :
    st.foldl (fun result p => jsSet result p.1 (copyObj p.2)) [] = st := by
  have h2 := foldl_jsSet_append copyObj st [] hwf.1 (by simp)
  rw [h2]
  have h3 : ∀ p ∈ st, ((p.1, copyObj p.2) : String × SectionMap) = p := by
    intro p hp
    obtain ⟨k, sec⟩ := p
    simp [copyObj_eq_self sec (hwf.2 _ hp)]
  simp only [List.nil_append]
  calc st.map (fun kv => (kv.1, copyObj kv.2))
      = st.map id := List.map_congr_left h3
    _ = st := List.map_id st

theorem jsonDeepCopy_eq_self (st : Store) : jsonDeepCopy st = st := by
  unfold jsonDeepCopy
  have : ∀ p ∈ st, ((p.1, p.2.map fun kv => (kv.1, kv.2)) : String × SectionMap) = p := by
    intro p _
    obtain ⟨k, sec⟩ := p
    simp
  calc st.map (fun p => (p.1, p.2.map fun kv => (kv.1, kv.2)))
      = st.map id := List.map_congr_left this
    _ = st := List.map_id st

theorem buildConfig_foldl_append (parsed : List (String × JsVal))
    (acc : Store)
    (h1 : (parsed.map Prod.fst).Nodup)
    (h2 : ∀ p ∈ parsed, objEntriesNodup p.2)
    (hdisj : ∀ k ∈ parsed.map Prod.fst, k ∉ acc.map Prod.fst) :
    parsed.foldl
      (fun cfg entry =>
        match entry.2 with
        | JsVal.obj _ values =>
            jsSet cfg entry.1
              (values.foldl (fun sec kv => jsSet sec kv.1 (jsString kv.2)) [])
        | JsVal.scalar _ => cfg)
      acc
      = acc ++ parsed.filterMap keptTopLevelEntry := by
  induction parsed generalizing acc with
  | nil => simp
  | cons p rest ih =>
      obtain ⟨k, val⟩ := p
      simp only [List.map_cons, List.nodup_cons] at h1
      cases val with
      | scalar r =>
          simp only [List.foldl_cons, List.filterMap_cons]
          rw [ih acc h1.2 (fun q hq => h2 q (by simp [hq]))
            (fun k2 hk2 => hdisj k2 (by simp [hk2]))]
          rfl
      | obj r values =>
          have hvals : (values.map Prod.fst).Nodup := by
            have := h2 (k, JsVal.obj r values) (by simp)
            simpa [objEntriesNodup] using this
          have hinner :
              values.foldl (fun sec kv => jsSet sec kv.1 (jsString kv.2)) []
                = values.map fun kv => (kv.1, jsString kv.2) := by
            have := foldl_jsSet_append jsString values [] hvals (by simp)
            simpa using this
          have hk : k ∉ acc.map Prod.fst := hdisj k (by simp)
          simp only [List.foldl_cons]
          rw [jsSet_of_not_mem acc k _ hk]
          rw [ih (acc ++ [(k, values.foldl (fun sec kv => jsSet sec kv.1 (jsString kv.2)) [])])
            h1.2 (fun q hq => h2 q (by simp [hq])) ?_]
          · simp [List.filterMap_cons, keptTopLevelEntry, hinner]
          · intro k2 hk2
            simp only [List.map_append, List.mem_append, List.map_cons,
              List.map_nil, List.mem_singleton, not_or]
            refine ⟨hdisj k2 (by simp [hk2]), ?_⟩
            intro hcon
            exact h1.1 (by simpa [hcon] using hk2)

theorem buildConfig_eq_filterMap (parsed : List (String × JsVal))
    (h1 : (parsed.map Prod.fst).Nodup)
    (h2 : ∀ p ∈ parsed, objEntriesNodup p.2) :
    HazoConfig.buildConfig parsed = parsed.filterMap keptTopLevelEntry := by
  have := buildConfig_foldl_append parsed [] h1 h2 (by simp)
  simpa [HazoConfig.buildConfig] using this

/-- The store-level content of set-then-get: after ensuring the section
object exists and assigning the key on it in place, reading the section
then the key yields the assigned value. -/
theorem store_set_then_get (st : Store) (s k v : String) :
    (jsGet (jsModify (if (jsGet st s).isNone then jsSet st s [] else st) s
        fun sec => jsSet sec k v) s).bind (fun sec => jsGet sec k)
      = some v := by
  cases h : jsGet st s with
  | none =>
      rw [if_pos (by simp [h])]
      rw [jsGet_jsModify_self]
      rw [jsGet_jsSet_self]
      simp [jsGet_jsSet_self]
  | some sec =>
      rw [if_neg (by simp [h])]
      rw [jsGet_jsModify_self, h]
      simp [jsGet_jsSet_self]

/-! ### Lemmas about the heap model -/

theorem le_foldl_max (h : Heap) (n : Nat) :
    n ≤ h.foldl (fun m p => max m p.1) n := by
  induction h generalizing n with
  | nil => exact Nat.le_refl n
  | cons p rest ih => exact le_trans (Nat.le_max_left n p.1) (ih (max n p.1))

theorem mem_le_foldl_max (h : Heap) (q : Nat × SectionMap) (hq : q ∈ h) :
    ∀ n, q.1 ≤ h.foldl (fun m p => max m p.1) n := by
  induction h with
  | nil => cases hq
  | cons p rest ih =>
      intro n
      rcases List.mem_cons.mp hq with h1 | h2
      · subst h1
        exact le_trans (Nat.le_max_right n q.1) (le_foldl_max rest (max n q.1))
      · exact ih h2 (max n p.1)

theorem freshAddr_not_mem (h : Heap) : freshAddr h ∉ heapDom h := by
  intro hmem
  rcases List.mem_map.mp hmem with ⟨q, hq, hfst⟩
  have h1 := mem_le_foldl_max h q hq 0
  unfold freshAddr at hfst
  omega

theorem jsGet_mem [DecidableEq κ] (o : List (κ × α)) (k : κ) (v : α)
    (h : jsGet o k = some v) : (k, v) ∈ o := by
  induction o with
  | nil => cases h
  | cons p rest ih =>
      obtain ⟨k', v'⟩ := p
      by_cases hk : k' = k
      · subst hk
        rw [jsGet_cons_self] at h
        injection h with h
        subst h
        exact List.mem_cons_self _ _
      · rw [jsGet_cons_ne rest k' k v' hk] at h
        exact List.mem_cons_of_mem _ (ih h)

theorem mem_snd_jsSet [DecidableEq κ] (o : List (κ × α)) (k : κ) (v b : α)
    (hb : b ∈ (jsSet o k v).map Prod.snd) :
    b ∈ o.map Prod.snd ∨ b = v := by
  induction o with
  | nil =>
      rw [jsSet_nil, List.map_cons] at hb
      rcases List.mem_cons.mp hb with h1 | h1
      · exact Or.inr h1
      · cases h1
  | cons p rest ih =>
      obtain ⟨k', v'⟩ := p
      by_cases hk : k' = k
      · subst hk
        rw [jsSet_cons_self, List.map_cons] at hb
        rcases List.mem_cons.mp hb with h1 | h1
        · exact Or.inr h1
        · exact Or.inl (List.mem_cons_of_mem _ h1)
      · rw [jsSet_cons_ne rest k' k v' v hk, List.map_cons] at hb
        rcases List.mem_cons.mp hb with h1 | h1
        · exact Or.inl (h1 ▸ List.mem_cons_self _ _)
        · rcases ih h1 with h2 | h2
          · exact Or.inl (List.mem_cons_of_mem _ h2)
          · exact Or.inr h2

/-- Observations through the provider depend only on what its own section
objects hold: two heaps agreeing on every address the provider points at
give the same `get`, section contents and all-sections contents. -/
theorem reads_agree (h h' : Heap) (c : RefProvider)
    (hag : ∀ p ∈ c.sections, jsGet h' p.2 = jsGet h p.2) :
    (∀ s k, RefProvider.get h' c s k = RefProvider.get h c s k)
    ∧ (∀ s, RefProvider.readSection h' c s = RefProvider.readSection h c s)
    ∧ RefProvider.readAll h' c = RefProvider.readAll h c := by
  refine ⟨?_, ?_, ?_⟩
  · intro s k
    unfold RefProvider.get
    cases hs : jsGet c.sections s with
    | none => rfl
    | some a => simp [hag (s, a) (jsGet_mem c.sections s a hs)]
  · intro s
    unfold RefProvider.readSection
    cases hs : jsGet c.sections s with
    | none => rfl
    | some a => simp [hag (s, a) (jsGet_mem c.sections s a hs)]
  · unfold RefProvider.readAll
    refine List.map_congr_left fun p hp => ?_
    rw [hag p hp]

/-- Frame facts about the `getAllSections` loop: it only grows the heap
(existing objects keep their contents and stay allocated), and every
address it puts into the result — beyond those already in the
accumulator — is freshly allocated, hence outside the initial heap. -/
theorem gasStep_foldl_frame (l : List (String × Nat)) :
    ∀ (acc : List (String × Nat)) (h0 : Heap),
      (∀ a ∈ heapDom h0,
          jsGet (l.foldl RefProvider.gasStep (acc, h0)).2 a = jsGet h0 a)
      ∧ (∀ a ∈ heapDom h0, a ∈ heapDom (l.foldl RefProvider.gasStep (acc, h0)).2)
      ∧ (∀ q ∈ (l.foldl RefProvider.gasStep (acc, h0)).1,
          q.2 ∈ acc.map Prod.snd ∨ q.2 ∉ heapDom h0) := by
  induction l with
  | nil =>
      intro acc h0
      exact ⟨fun a _ => rfl, fun a ha => ha, fun q hq => Or.inl (List.mem_map_of_mem _ hq)⟩
  | cons p rest ih =>
      intro acc h0
      simp only [List.foldl_cons]
      cases hm : jsGet h0 p.2 with
      | none =>
          simp only [RefProvider.gasStep, hm]
          exact ih acc h0
      | some o =>
          simp only [RefProvider.gasStep, hm, heapAlloc]
          have hF : freshAddr h0 ∉ heapDom h0 := freshAddr_not_mem h0
          obtain ⟨ih1, ih2, ih3⟩ :=
            ih (jsSet acc p.1 (freshAddr h0)) ((freshAddr h0, copyObj o) :: h0)
          refine ⟨?_, ?_, ?_⟩
          · intro a ha
            have hne : freshAddr h0 ≠ a := fun hcon => hF (hcon ▸ ha)
            have h1 := ih1 a (List.mem_cons_of_mem _ ha)
            rw [h1, jsGet_cons_ne h0 (freshAddr h0) a (copyObj o) hne]
          · intro a ha
            exact ih2 a (List.mem_cons_of_mem _ ha)
          · intro q hq
            rcases ih3 q hq with hleft | hright
            · rcases mem_snd_jsSet acc p.1 (freshAddr h0) q.2 hleft with h4 | h4
              · exact Or.inl h4
              · exact Or.inr (h4 ▸ hF)
            · exact Or.inr fun hcon => hright (List.mem_cons_of_mem _ hcon)

/-! ### Claim theorems -/

/-- C1: the claim states that a `refresh` whose file read fails for a
reason other than the file being absent raises READ_ERROR, and
FILE_NOT_FOUND exactly when the read error is ENOENT.  The code disagrees
on the first half: `refresh` wraps its whole body in a single try/catch
whose handler only distinguishes `error.code === 'ENOENT'`, so a read
fault on an existing file (permissions, I/O) is re-thrown as PARSE_ERROR
with the message "Failed to parse configuration: ...", and the READ_ERROR
code declared in types.ts is never thrown anywhere.  This theorem
evaluates the code at the failing input: for every codec, provider state
and fault message, a non-ENOENT read fault yields PARSE_ERROR (not
READ_ERROR), while an ENOENT read fault does yield FILE_NOT_FOUND as
claimed. -/
theorem refresh_read_fault_yields_parse_error
    (parse : String → Except String (List (String × JsVal)))
    (c : HazoConfig) (msg : String) :
    (HazoConfig.refresh parse (.unreadable msg) c).1
        = .error ⟨.PARSE_ERROR, "Failed to parse configuration: " ++ msg⟩
    ∧ (HazoConfig.refresh parse .absent c).1
        = .error ⟨.FILE_NOT_FOUND, "Configuration file not found: " ++ c.filePath⟩ :=
  ⟨rfl, rfl⟩

/-- C2: if the underlying file write fails, `save` throws WRITE_ERROR and
the in-memory cache is left completely unchanged: the post-call provider
state is the pre-call one, so every subsequent `get`, `getSection` and
`getAllSections` result is the same as before the failed save. -/
theorem save_write_failure_cache_unchanged
    (stringify : Store → String) (msg : String) (residual : FsFile)
    (c : HazoConfig) (file : FsFile) :
    (HazoConfig.save stringify (.failure msg residual) c file).1
        = .error ⟨.WRITE_ERROR, "Failed to save configuration: " ++ msg⟩
    ∧ (HazoConfig.save stringify (.failure msg residual) c file).2.1 = c
    ∧ (∀ s k, ((HazoConfig.save stringify (.failure msg residual) c file).2.1).get s k
        = c.get s k)
    ∧ (∀ s, ((HazoConfig.save stringify (.failure msg residual) c file).2.1).getSection s
        = c.getSection s)
    ∧ ((HazoConfig.save stringify (.failure msg residual) c file).2.1).getAllSections
        = c.getAllSections :=
  ⟨rfl, rfl, fun _ _ => rfl, fun _ => rfl, rfl⟩

/-- C3: a `refresh` whose read and parse succeed builds the new cache by
keeping exactly the top-level entries of the parsed structure that are
themselves non-null objects (dropping top-level scalars), coercing every
value of a kept section to its string form, and replaces the previous
cache wholesale: the result is the same for every prior cache, so no
entry of the previous cache survives.  The key-uniqueness hypotheses are
the invariant every JS object `ini.parse` returns satisfies. -/
theorem refresh_success_rebuilds_cache
    (parse : String → Except String (List (String × JsVal)))
    (t : String) (parsed : List (String × JsVal)) (c : HazoConfig)
    (hp : parse t = .ok parsed)
    (h1 : (parsed.map Prod.fst).Nodup)
    (h2 : ∀ p ∈ parsed, objEntriesNodup p.2) :
    HazoConfig.refresh parse (.readable t) c
      = (.ok (), ⟨c.filePath, parsed.filterMap keptTopLevelEntry⟩) := by
  unfold HazoConfig.refresh
  simp only [readFileSync]
  rw [hp]
  exact congrArg (fun st => ((Except.ok ()),
    ({ filePath := c.filePath, config := st } : HazoConfig)))
    (buildConfig_eq_filterMap parsed h1 h2)

/-- Witness for C3: refreshing over a parsed structure with a scalar
top-level entry and one section drops the scalar, keeps the section with
its values coerced, and discards the whole prior cache. -/
theorem refresh_success_rebuilds_cache_witness :
    HazoConfig.refresh
      (fun _ => Except.ok [("top", JsVal.scalar "5"),
        ("db", JsVal.obj "[object Object]"
          [("host", JsVal.scalar "localhost"), ("port", JsVal.scalar "5432")])])
      (.readable "t") ⟨"cfg.ini", [("old", [("a", "b")])]⟩
      = (.ok (), ⟨"cfg.ini", [("db", [("host", "localhost"), ("port", "5432")])]⟩) := by
  have h := refresh_success_rebuilds_cache
    (fun _ => Except.ok [("top", JsVal.scalar "5"),
      ("db", JsVal.obj "[object Object]"
        [("host", JsVal.scalar "localhost"), ("port", JsVal.scalar "5432")])])
    "t" _ ⟨"cfg.ini", [("old", [("a", "b")])]⟩ rfl (by decide) (by decide)
  simpa [keptTopLevelEntry, jsString] using h

/-- C5: read-your-writes for both providers: `set(s, k, v)` followed
immediately by `get(s, k)` returns exactly `v`, with no save in between,
whether or not the section or key existed before. -/
theorem set_then_get_returns_value (c : HazoConfig) (m : MockConfigProvider)
    (s k v : String) :
    (c.set s k v).get s k = some v ∧ (m.set s k v).get s k = some v :=
  ⟨store_set_then_get c.config s k v, store_set_then_get m.config s k v⟩

/-- C6: constructing the persistent provider over a path that does not
exist fails with FILE_NOT_FOUND and leaves the file absent (it is not
created); over an existing readable file it performs the initial refresh,
so the cache is populated from the file's parsed contents. -/
theorem construct_validates_and_loads
    (parse : String → Except String (List (String × JsVal)))
    (p t : String) (parsed : List (String × JsVal))
    (hp : parse t = .ok parsed) :
    HazoConfig.construct parse p .absent
        = (.error ⟨.FILE_NOT_FOUND, "Configuration file not found: " ++ p⟩, .absent)
    ∧ HazoConfig.construct parse p (.readable t)
        = (.ok ⟨p, HazoConfig.buildConfig parsed⟩, .readable t) := by
  constructor
  · rfl
  · unfold HazoConfig.construct HazoConfig.refresh
    simp only [existsSync, readFileSync, if_true]
    rw [hp]

/-- Witness for C6: over the absent file the constructor fails with
FILE_NOT_FOUND without creating the file; over a readable file the cache
holds the parsed sections. -/
theorem construct_validates_and_loads_witness :
    HazoConfig.construct
        (fun _ => Except.ok [("A", JsVal.obj "[object Object]" [("x", JsVal.scalar "1")])])
        "cfg.ini" .absent
      = (.error ⟨.FILE_NOT_FOUND, "Configuration file not found: cfg.ini"⟩, .absent)
    ∧ HazoConfig.construct
        (fun _ => Except.ok [("A", JsVal.obj "[object Object]" [("x", JsVal.scalar "1")])])
        "cfg.ini" (.readable "t")
      = (.ok ⟨"cfg.ini", [("A", [("x", "1")])]⟩, .readable "t") := by
  have h := construct_validates_and_loads
    (fun _ => Except.ok [("A", JsVal.obj "[object Object]" [("x", JsVal.scalar "1")])])
    "cfg.ini" "t" _ rfl
  simpa [HazoConfig.buildConfig, jsSet, jsString] using h

/-- C4: round-trip law for the persistent provider.  Over a file whose
parsed contents are the sections A = (x = 1), performing
set("A","y","2"), then a successful save, then constructing a fresh
provider over the same path, the fresh provider's getAllSections yields
A = (x = 1, y = 2).  The hypotheses instantiate the law "the codec's
parse is the inverse of its stringify" at the two stores involved. -/
theorem save_construct_round_trip
    (parse : String → Except String (List (String × JsVal)))
    (stringify : Store → String) (p t0 rA rB : String)
    (h0 : parse t0 = .ok [("A", JsVal.obj rA [("x", JsVal.scalar "1")])])
    (h1 : parse (stringify [("A", [("x", "1"), ("y", "2")])])
        = .ok [("A", JsVal.obj rB
            [("x", JsVal.scalar "1"), ("y", JsVal.scalar "2")])]) :
    ∃ c0 c2 : HazoConfig,
      (HazoConfig.construct parse p (.readable t0)).1 = .ok c0
      ∧ (HazoConfig.save stringify .success (c0.set "A" "y" "2") (.readable t0)).1
          = .ok ()
      ∧ (HazoConfig.construct parse p
            (HazoConfig.save stringify .success (c0.set "A" "y" "2")
              (.readable t0)).2.2).1
          = .ok c2
      ∧ c2.getAllSections = [("A", [("x", "1"), ("y", "2")])] := by
  refine ⟨⟨p, [("A", [("x", "1")])]⟩, ⟨p, [("A", [("x", "1"), ("y", "2")])]⟩,
    ?_, rfl, ?_, ?_⟩
  · unfold HazoConfig.construct HazoConfig.refresh
    simp only [existsSync, readFileSync, if_true]
    rw [h0]
    rfl
  · show (HazoConfig.construct parse p
        (.readable (stringify [("A", [("x", "1"), ("y", "2")])]))).1
      = .ok ⟨p, [("A", [("x", "1"), ("y", "2")])]⟩
    unfold HazoConfig.construct HazoConfig.refresh
    simp only [existsSync, readFileSync, if_true]
    rw [h1]
    rfl
  · show ([("A", [("x", "1"), ("y", "2")])] : Store).foldl
      (fun result q => jsSet result q.1 (copyObj q.2)) []
      = [("A", [("x", "1"), ("y", "2")])]
    exact foldl_copy_eq_self [("A", [("x", "1"), ("y", "2")])] (by decide)

/-- Witness for C4: the round-trip law at a concrete codec satisfying the
parse-inverts-stringify hypotheses at the two stores involved. -/
theorem save_construct_round_trip_witness :
    ∃ c0 c2 : HazoConfig,
      (HazoConfig.construct roundTripParse "cfg.ini" (.readable "init")).1 = .ok c0
      ∧ (HazoConfig.save roundTripStringify .success (c0.set "A" "y" "2")
            (.readable "init")).1 = .ok ()
      ∧ (HazoConfig.construct roundTripParse "cfg.ini"
            (HazoConfig.save roundTripStringify .success (c0.set "A" "y" "2")
              (.readable "init")).2.2).1
          = .ok c2
      ∧ c2.getAllSections = [("A", [("x", "1"), ("y", "2")])] :=
  save_construct_round_trip roundTripParse roundTripStringify "cfg.ini" "init"
    "[object Object]" "[object Object]" rfl rfl

/-- C7: for both providers, `get` on an absent section, or on an absent
key of an existing section, returns the not-found result `none` — never an
exception (the operations are total functions into `Option`) and never the
empty string — and `getSection` on an absent section returns `none`, not
an empty map. -/
theorem get_absent_returns_not_found
    (c : HazoConfig) (m : MockConfigProvider)
    (s1 k1 s2 k2 : String) (sec secm : SectionMap)
    (hc1 : jsGet c.config s1 = none)
    (hc2 : jsGet c.config s2 = some sec) (hc3 : jsGet sec k2 = none)
    (hm1 : jsGet m.config s1 = none)
    (hm2 : jsGet m.config s2 = some secm) (hm3 : jsGet secm k2 = none) :
    c.get s1 k1 = none ∧ c.getSection s1 = none ∧ c.get s2 k2 = none
    ∧ m.get s1 k1 = none ∧ m.getSection s1 = none ∧ m.get s2 k2 = none := by
  refine ⟨?_, ?_, ?_, ?_, ?_, ?_⟩ <;>
    simp [HazoConfig.get, HazoConfig.getSection, MockConfigProvider.get,
      MockConfigProvider.getSection, hc1, hc2, hc3, hm1, hm2, hm3]

/-- Witness for C7, on the spec's scenario store: `get("cache", k)` and
`getSection("cache")` on the absent section, and `get("db", "missing")`
on the absent key, are all not-found for both providers. -/
theorem get_absent_returns_not_found_witness :
    HazoConfig.get ⟨"p", [("db", [("host", "localhost"), ("port", "5432")])]⟩ "cache" "k" = none
    ∧ HazoConfig.getSection ⟨"p", [("db", [("host", "localhost"), ("port", "5432")])]⟩ "cache" = none
    ∧ HazoConfig.get ⟨"p", [("db", [("host", "localhost"), ("port", "5432")])]⟩ "db" "missing" = none
    ∧ MockConfigProvider.get ⟨[("db", [("host", "localhost"), ("port", "5432")])]⟩ "cache" "k" = none
    ∧ MockConfigProvider.getSection ⟨[("db", [("host", "localhost"), ("port", "5432")])]⟩ "cache" = none
    ∧ MockConfigProvider.get ⟨[("db", [("host", "localhost"), ("port", "5432")])]⟩ "db" "missing" = none :=
  get_absent_returns_not_found
    ⟨"p", [("db", [("host", "localhost"), ("port", "5432")])]⟩
    ⟨[("db", [("host", "localhost"), ("port", "5432")])]⟩
    "cache" "k" "db" "missing"
    [("host", "localhost"), ("port", "5432")] [("host", "localhost"), ("port", "5432")]
    (by decide) (by decide) (by decide) (by decide) (by decide) (by decide)

/-- C9: the in-memory provider's `reset()` with no argument empties the
store (`getAllSections` is empty and every `get` is not-found), and
`reset(data)` replaces the whole store with a deep copy of `data`,
discarding every prior section: the result does not depend on the prior
store at all. -/
theorem reset_replaces_or_empties_store
    (m : MockConfigProvider) (d : Store) (hwf : storeWF d) :
    (m.reset none).getAllSections = []
    ∧ (∀ s k, (m.reset none).get s k = none)
    ∧ (m.reset (some d)).config = d
    ∧ (m.reset (some d)).getAllSections = d := by
  refine ⟨rfl, fun s k => rfl, jsonDeepCopy_eq_self d, ?_⟩
  show (jsonDeepCopy d).foldl (fun result p => jsSet result p.1 (copyObj p.2)) [] = d
  rw [jsonDeepCopy_eq_self d]
  exact foldl_copy_eq_self d hwf

/-- Witness for C9: resetting a seeded provider with no argument empties
it; resetting it with new data replaces the store, discarding the prior
section. -/
theorem reset_replaces_or_empties_store_witness :
    (MockConfigProvider.reset ⟨[("old", [("a", "b")])]⟩ none).getAllSections = []
    ∧ (MockConfigProvider.reset ⟨[("old", [("a", "b")])]⟩ none).get "old" "a" = none
    ∧ (MockConfigProvider.reset ⟨[("old", [("a", "b")])]⟩
        (some [("db", [("host", "localhost")])])).getAllSections
      = [("db", [("host", "localhost")])] := by
  have h := reset_replaces_or_empties_store ⟨[("old", [("a", "b")])]⟩
    [("db", [("host", "localhost")])] (by decide)
  exact ⟨h.1, h.2.1 "old" "a", h.2.2.2⟩

/-- C10 (implicit): every failing `refresh` — whether the read throws or
the parse throws — leaves the cache exactly as it was: the cache
assignment happens only after both succeed, and the rebuild loop itself is
total, so `get`, `getSection` and `getAllSections` return the same
results after the failed refresh as before it. -/
theorem failed_refresh_leaves_cache_unchanged
    (parse : String → Except String (List (String × JsVal)))
    (file : FsFile) (c : HazoConfig) (e : HazoConfigError)
    (h : (HazoConfig.refresh parse file c).1 = .error e) :
    (HazoConfig.refresh parse file c).2 = c
    ∧ (∀ s k, (HazoConfig.refresh parse file c).2.get s k = c.get s k)
    ∧ (∀ s, (HazoConfig.refresh parse file c).2.getSection s = c.getSection s)
    ∧ (HazoConfig.refresh parse file c).2.getAllSections = c.getAllSections := by
  have hstate : (HazoConfig.refresh parse file c).2 = c := by
    unfold HazoConfig.refresh at h ⊢
    cases hr : readFileSync file with
    | error err => cases err <;> simp [hr]
    | ok content =>
        cases hq : parse content with
        | error msg => simp [hr, hq]
        | ok parsed => simp [hr, hq] at h
  exact ⟨hstate, fun s k => by rw [hstate], fun s => by rw [hstate], by rw [hstate]⟩

/-- C8: for both providers (the accessor code is identical in the two
classes), `getSection` and `getAllSections` hand out copies, never the
internal store by reference: the reference they return is freshly
allocated, so mutating the returned map — replacing its contents `mm` by
arbitrary entries, which covers adding, removing and overwriting — does
not change the result of any subsequent `get`, `getSection` or
`getAllSections` call on the provider. -/
theorem accessor_copies_do_not_alias_store
    (h : Heap) (c : RefProvider) (hwf : c.wf h) :
    (∀ s a h', RefProvider.getSection h c s = (some a, h') →
      ∀ mm,
        (∀ s' k', RefProvider.get (jsSet h' a mm) c s' k'
            = RefProvider.get h c s' k')
        ∧ (∀ s', RefProvider.readSection (jsSet h' a mm) c s'
            = RefProvider.readSection h c s')
        ∧ RefProvider.readAll (jsSet h' a mm) c = RefProvider.readAll h c)
    ∧ (∀ res h', RefProvider.getAllSections h c = (res, h') →
      ∀ q ∈ res, ∀ mm,
        (∀ s' k', RefProvider.get (jsSet h' q.2 mm) c s' k'
            = RefProvider.get h c s' k')
        ∧ (∀ s', RefProvider.readSection (jsSet h' q.2 mm) c s'
            = RefProvider.readSection h c s')
        ∧ RefProvider.readAll (jsSet h' q.2 mm) c = RefProvider.readAll h c) := by
  constructor
  · intro s a h' heq mm
    unfold RefProvider.getSection at heq
    cases hs : jsGet c.sections s with
    | none =>
        rw [hs] at heq
        simp at heq
    | some a0 =>
        rw [hs] at heq
        have heq2 : (match jsGet h a0 with
            | none => ((none : Option Nat), h)
            | some o => (some (heapAlloc h (copyObj o)).1, (heapAlloc h (copyObj o)).2))
            = (some a, h') := heq
        cases ho : jsGet h a0 with
        | none =>
            rw [ho] at heq2
            simp at heq2
        | some o =>
            rw [ho] at heq2
            simp only [heapAlloc, Prod.mk.injEq, Option.some.injEq] at heq2
            obtain ⟨ha, hh⟩ := heq2
            subst ha
            subst hh
            apply reads_agree
            intro p hp
            have hpd : p.2 ∈ heapDom h := hwf p hp
            have hne : p.2 ≠ freshAddr h :=
              fun hcon => freshAddr_not_mem h (hcon ▸ hpd)
            rw [jsGet_jsSet_ne _ (freshAddr h) p.2 mm hne,
              jsGet_cons_ne h (freshAddr h) p.2 (copyObj o) (Ne.symm hne)]
  · intro res h' heq q hq mm
    have hfold := gasStep_foldl_frame c.sections [] h
    rw [show c.sections.foldl RefProvider.gasStep ([], h)
        = RefProvider.getAllSections h c from rfl, heq] at hfold
    obtain ⟨hkeep, _, hfresh⟩ := hfold
    have hqd : q.2 ∉ heapDom h := by
      rcases hfresh q hq with h1 | h1
      · cases h1
      · exact h1
    apply reads_agree
    intro p hp
    have hpd : p.2 ∈ heapDom h := hwf p hp
    have hne : p.2 ≠ q.2 := fun hcon => hqd (hcon ▸ hpd)
    rw [jsGet_jsSet_ne h' q.2 p.2 mm hne, hkeep p.2 hpd]

/-- Witness for C8: over a one-section heap, mutating the fresh copy that
`getSection` returned, or the fresh copy inside the `getAllSections`
result, leaves the provider's own reads unchanged. -/
theorem accessor_copies_do_not_alias_store_witness :
    (RefProvider.get
        (jsSet [(2, [("x", "1")]), (1, [("x", "1")])] 2 [("x", "HACK")])
        ⟨[("A", 1)]⟩ "A" "x"
      = RefProvider.get [(1, [("x", "1")])] ⟨[("A", 1)]⟩ "A" "x")
    ∧ (RefProvider.readAll
        (jsSet [(2, [("x", "1")]), (1, [("x", "1")])] 2 [("x", "HACK")])
        ⟨[("A", 1)]⟩
      = RefProvider.readAll [(1, [("x", "1")])] ⟨[("A", 1)]⟩) :=
  ⟨((accessor_copies_do_not_alias_store [(1, [("x", "1")])] ⟨[("A", 1)]⟩
      (by decide)).1 "A" 2 [(2, [("x", "1")]), (1, [("x", "1")])] rfl
      [("x", "HACK")]).1 "A" "x",
    ((accessor_copies_do_not_alias_store [(1, [("x", "1")])] ⟨[("A", 1)]⟩
      (by decide)).2 [("A", 2)] [(2, [("x", "1")]), (1, [("x", "1")])] rfl
      ("A", 2) (by decide) [("x", "HACK")]).2.2⟩

/-- Witness for C10: a refresh that fails in the parse step leaves the
provider state untouched. -/
theorem failed_refresh_leaves_cache_unchanged_witness :
    (HazoConfig.refresh (fun _ => Except.error "bad ini") (.readable "z")
        ⟨"p", [("A", [("x", "1")])]⟩).2 = ⟨"p", [("A", [("x", "1")])]⟩ :=
  (failed_refresh_leaves_cache_unchanged (fun _ => Except.error "bad ini")
    (.readable "z") ⟨"p", [("A", [("x", "1")])]⟩
    ⟨.PARSE_ERROR, "Failed to parse configuration: bad ini"⟩ rfl).1

end HazoSpec
